import Mathlib

/-!
Verification development for the `reaper-save-rs` repository: a shallow
embedding of the REAPER save-file document model, its serializer and parser
(`src/reaper-save-rs/src/low_level.rs`) and the typed-view layer
(`src/reaper-save-rs/src/high_level.rs`), together with theorems settling
the specification claims.

Modelling conventions:
* Rust `String` text is modelled by Lean `String`; parser input and the
  serializer's character stream are modelled by `List Char`.
* Rust `i64` is modelled by `Int`.  The code never computes with the parsed
  integers, so the bound `2^63` appears only inside the decimal parser.
* Rust `f64` (`OrderedFloat<f64>`) is modelled by the decimal token text
  carried as a `String`: no claim depends on floating-point arithmetic, only
  on which tokens the float grammar accepts or rejects.
* Character classification (`char::is_numeric` etc.) is modelled exactly on
  the ASCII range (every input appearing in the claims is ASCII), while
  `char::is_whitespace` carries its full Unicode code-point list.
* `nom` parsers are modelled as functions `List Char → Option (List Char × α)`
  returning the unconsumed remainder and the parsed value, `none` on failure.
  The recursive `Object`/`Entry` grammar takes an explicit fuel argument;
  the public entry point supplies fuel linear in the input length, which
  bounds the recursion depth because every recursive step consumes input.
-/

namespace ReaperSave

/-- Carriage-return character, the `"\r"` of `"\r\n"`. -/
def crChar : Char := Char.ofNat 13

/-- Line-feed character, the `"\n"` written by `writeln!`. -/
def lfChar : Char := Char.ofNat 10

/-- Single-quote character. -/
def sqChar : Char := Char.ofNat 39

/-- Double-quote character. -/
def dqChar : Char := Char.ofNat 34

/-- Embeds `ReaperString` (low_level.rs): a string payload remembering which
quoting form it was written with. -/
inductive ReaperString where
  | singleQuote (v : String)
  | doubleQuote (v : String)
  | unquoted (v : String)
  deriving DecidableEq

/-- Embeds `AsRef<String> for ReaperString`: the payload irrespective of quoting. -/
def ReaperString.payload : ReaperString → String
  | .singleQuote v => v
  | .doubleQuote v => v
  | .unquoted v => v

/-- Embeds `Attribute` (low_level.rs): one scalar value of a line.  The
`float` payload is the decimal token text standing in for the `f64` value. -/
inductive Attribute where
  | reaperUid (v : String)
  | int (v : Int)
  | string (v : ReaperString)
  | float (v : String)
  | uNumber (v : Int)
  deriving DecidableEq

/-- Embeds `Line` (low_level.rs): an attribute name plus scalar values.  The
source's field `attribute : AttributeName` is the `attr` field here, with the
`AttributeName` newtype flattened to the `String` it wraps (`attribute` is a
reserved word in Lean). -/
structure Line where
  attr : String
  values : List Attribute
  deriving DecidableEq

/-- Embeds `Entry` (low_level.rs).  The source's `Object` struct is the pair
of fields carried by the `object` constructor; the standalone `Object`
structure below converts to and from it without loss. -/
inductive Entry where
  | object (header : Line) (values : List Entry)
  | line (l : Line)
  | anonymousParameter (v : String)

/-- Embeds `Object` (low_level.rs): a header line plus child entries. -/
structure Object where
  header : Line
  values : List Entry

/-- Embeds `Entry::Object(object)`. -/
def Object.toEntry (o : Object) : Entry := .object o.header o.values

/-- Embeds `Entry::as_object` (enum_as_inner). -/
def Entry.asObject : Entry → Option Object
  | .object h v => some ⟨h, v⟩
  | _ => none

/-- Embeds `enum_as_inner`'s `is_object` test on `Entry`. -/
def Entry.isObjectB : Entry → Bool
  | .object _ _ => true
  | _ => false

mutual

/-- Structural equality test on `Entry` (the derived `PartialEq` of the source). -/
def Entry.beq : Entry → Entry → Bool
  | .object h₁ v₁, .object h₂ v₂ => h₁ == h₂ && Entry.beqList v₁ v₂
  | .line l₁, .line l₂ => l₁ == l₂
  | .anonymousParameter s₁, .anonymousParameter s₂ => s₁ == s₂
  | _, _ => false

/-- Pointwise `Entry.beq` on lists of entries. -/
def Entry.beqList : List Entry → List Entry → Bool
  | [], [] => true
  | a :: as, b :: bs => Entry.beq a b && Entry.beqList as bs
  | _, _ => false

end

/-- Decidable structural equality for the nested `Entry` tree (the derived
`Eq` of the source). -/
instance : DecidableEq Entry := fun a b =>
  decidable_of_iff (Entry.beq a b = true) (by
    refine Entry.beq.induct (fun a b => Entry.beq a b = true ↔ a = b)
      (fun x y => Entry.beqList x y = true ↔ x = y) ?_ ?_ ?_ ?_ ?_ ?_ ?_ a b
    · intro h₁ v₁ h₂ v₂ ih
      simp [Entry.beq, ih]
    · intro l₁ l₂
      simp [Entry.beq]
    · intro s₁ s₂
      simp [Entry.beq]
    · intro t x ho hl ha
      cases t <;> cases x <;>
        first
          | exact (ho _ _ _ _ rfl rfl).elim
          | exact (hl _ _ rfl rfl).elim
          | exact (ha _ _ rfl rfl).elim
          | simp [Entry.beq]
    · simp [Entry.beqList]
    · intro a as b bs ih₁ ih₂
      simp [Entry.beqList, ih₁, ih₂]
    · intro t x h0 hc
      cases t <;> cases x <;>
        first
          | exact (h0 rfl rfl).elim
          | exact (hc _ _ _ _ rfl rfl).elim
          | simp [Entry.beqList])

instance : DecidableEq Object := fun a b =>
  decidable_of_iff (a.header = b.header ∧ a.values = b.values)
    (by cases a; cases b; simp)

/-! ## Serializer (low_level.rs, `SerializeAndDeserialize::serialize`)

The serializer writes into a `String` sink; we model the emitted character
stream as a `List Char`.  `INDENT_SPACES = 2`. -/

/-- Embeds `to_indent` / `write_indent`: `2 * indent` space characters. -/
def indentChars (indent : Nat) : List Char := List.replicate (2 * indent) ' '

/-- Decimal digit character for `d < 10`. -/
def digitChar10 (d : Nat) : Char := Char.ofNat (48 + d)

/-- Decimal rendering of a natural number, as Rust's `Display` writes it
(no leading zeros, `natChars 0 = "0"`). -/
def natChars (n : Nat) : List Char :=
  if _h : n < 10 then [digitChar10 n]
  else natChars (n / 10) ++ [digitChar10 (n % 10)]
  decreasing_by exact Nat.div_lt_self (by omega) (by omega)

/-- Decimal rendering of an `i64` value, as Rust's `Display` for `i64`:
optional minus sign followed by the decimal digits. -/
def intChars (i : Int) : List Char :=
  if i < 0 then '-' :: natChars i.natAbs else natChars i.natAbs

/-- Embeds `ReaperString::serialize`: the payload surrounded by the remembered
quoting characters (none for `Unquoted`). -/
def ReaperString.serializeChars : ReaperString → List Char
  | .singleQuote v => sqChar :: v.data ++ [sqChar]
  | .doubleQuote v => dqChar :: v.data ++ [dqChar]
  | .unquoted v => v.data

/-- Embeds `Attribute::serialize` (and hence `serialize_inline` at indent 0):
uid in braces, strings via `ReaperString::serialize`, floats as their decimal
text, ints in decimal, u-numbers in decimal with the `:U` suffix. -/
def Attribute.serializeChars : Attribute → List Char
  | .reaperUid v => '{' :: v.data ++ ['}']
  | .string v => v.serializeChars
  | .float v => v.data
  | .int v => intChars v
  | .uNumber v => intChars v ++ [':', 'U']

/-- Embeds the `segments.join(" ")` of `Line::serialize`. -/
def joinSpace : List (List Char) → List Char
  | [] => []
  | [x] => x
  | x :: xs => x ++ ' ' :: joinSpace xs

/-- Embeds `Line::serialize`: the indent, then the attribute name and every
value rendered inline, joined with single spaces.  No trailing newline. -/
def Line.serializeChars (l : Line) (indent : Nat) : List Char :=
  indentChars indent ++ joinSpace (l.attr.data :: l.values.map Attribute.serializeChars)

mutual

/-- Embeds `Entry::serialize` dispatching on the variant; the object arm is
`Object::serialize`: indent, `<`, the header at relative indent 0, a newline
written by `writeln!` (which emits `"\n"`, not `"\r\n"`), each child at
`indent + 1` followed by a `writeln!` newline, then indent and `>`. -/
def Entry.serializeChars : Entry → Nat → List Char
  | .object header values, indent =>
    indentChars indent ++ '<' :: header.serializeChars 0 ++ lfChar ::
      (Entry.serializeList values (indent + 1) ++ indentChars indent ++ ['>'])
  | .line l, indent => l.serializeChars indent
  | .anonymousParameter v, indent => indentChars indent ++ v.data

/-- The `for entry in self.values.iter()` loop of `Object::serialize`:
each child is serialized at the given indent and followed by `writeln!`'s
`"\n"`. -/
def Entry.serializeList : List Entry → Nat → List Char
  | [], _ => []
  | e :: es, indent =>
    Entry.serializeChars e indent ++ lfChar :: Entry.serializeList es indent

end

/-- Embeds `Object::serialize` (see `Entry.serializeChars`, object arm). -/
def Object.serializeChars (o : Object) (indent : Nat) : List Char :=
  Entry.serializeChars o.toEntry indent

/-- Embeds `SerializeAndDeserialize::serialize_inline` on an `Attribute`
(serialize at indent 0 into a fresh string); the `fmt::Error` failure mode of
writing into a `String` cannot occur and is not modelled. -/
def Attribute.serializeInline (a : Attribute) : String :=
  ⟨a.serializeChars⟩

/-- Embeds the top-level `to_string` (low_level.rs): the root object
serialized at indent 0 with one final `"\r\n"` appended.  The `fmt::Error`
failure path cannot occur and is not modelled. -/
def toStringTop (o : Object) : String :=
  ⟨o.serializeChars 0 ++ [crChar, lfChar]⟩

/-! ## Parser (low_level.rs, `SerializeAndDeserialize::deserialize`)

Character classification mirrors the Rust `char` methods used by the source;
the Unicode-only parts of `is_numeric`/`is_alphanumeric`/`is_uppercase` beyond
ASCII are not modelled (no claim leaves the ASCII range). -/

/-- Embeds `char::is_whitespace` (the full Unicode `White_Space` set). -/
def ruIsWhitespace (c : Char) : Bool :=
  let n := c.toNat
  n = 0x20 || n = 0x9 || n = 0xA || n = 0xB || n = 0xC || n = 0xD ||
  n = 0x85 || n = 0xA0 || n = 0x1680 || (0x2000 ≤ n && n ≤ 0x200A) ||
  n = 0x2028 || n = 0x2029 || n = 0x202F || n = 0x205F || n = 0x3000

/-- Embeds `char::is_numeric`, ASCII fragment. -/
def ruIsNumeric (c : Char) : Bool := c.isDigit

/-- Embeds `char::is_alphabetic && char::is_uppercase`, ASCII fragment. -/
def ruIsUpperAlpha (c : Char) : Bool := 'A' ≤ c && c ≤ 'Z'

/-- Embeds `char::is_alphanumeric`, ASCII fragment. -/
def ruIsAlphanumeric (c : Char) : Bool := c.isAlphanum

/-- Embeds `char::is_ascii_hexdigit`. -/
def ruIsAsciiHexdigit (c : Char) : Bool :=
  c.isDigit || ('a' ≤ c && c ≤ 'f') || ('A' ≤ c && c ≤ 'F')

/-- Embeds `nom`'s `tag`: consume exactly the given characters or fail,
returning the remainder. -/
def tagChars : List Char → List Char → Option (List Char)
  | [], rest => some rest
  | _ :: _, [] => none
  | c :: ts, d :: ds => if c = d then tagChars ts ds else none

/-- Embeds `nom`'s `take_while`: the matching run and the remainder (total). -/
def takeWhileSplit (p : Char → Bool) (input : List Char) : List Char × List Char :=
  (input.takeWhile p, input.dropWhile p)

/-- Embeds `nom`'s `take_while_m_n(n, n, p)` as used for spaces and indents:
consume exactly `n` matching characters (failing when fewer match). -/
def takeWhileExact (n : Nat) (p : Char → Bool) (input : List Char) : Option (List Char) :=
  if n ≤ (input.takeWhile p).length then some (input.drop n) else none

/-- Embeds `parse_space`: exactly one `' '`. -/
def parseSpace (input : List Char) : Option (List Char) :=
  takeWhileExact 1 (· = ' ') input

/-- Embeds `parse_indents`: exactly `2 * indent` spaces. -/
def parseIndents (indent : Nat) (input : List Char) : Option (List Char) :=
  takeWhileExact (2 * indent) (· = ' ') input

/-- Embeds `parse_newline`: `"\r\n"` or else `"\n"`. -/
def parseNewline (input : List Char) : Option (List Char) :=
  match tagChars [crChar, lfChar] input with
  | some rest => some rest
  | none => tagChars [lfChar] input

/-- Embeds `ReaperUid::deserialize`: `{`, a run of hex digits or hyphens, `}`. -/
def reaperUidP (input : List Char) : Option (List Char × String) :=
  (tagChars ['{'] input).bind fun r1 =>
    let (tok, r2) := takeWhileSplit (fun c => ruIsAsciiHexdigit c || c = '-') r1
    (tagChars ['}'] r2).map fun r3 => (r3, ⟨tok⟩)

/-- The `quote` helper of `ReaperString::deserialize`: a quote character, a
run of non-quote characters, the closing quote. -/
def quotedP (q : Char) (input : List Char) : Option (List Char × String) :=
  (tagChars [q] input).bind fun r1 =>
    let (tok, r2) := takeWhileSplit (fun c => c ≠ q) r1
    (tagChars [q] r2).map fun r3 => (r3, ⟨tok⟩)

/-- Embeds `ReaperString::deserialize`: double-quoted, or else single-quoted. -/
def reaperStringP (input : List Char) : Option (List Char × ReaperString) :=
  match quotedP dqChar input with
  | some (r, v) => some (r, .doubleQuote v)
  | none =>
    match quotedP sqChar input with
    | some (r, v) => some (r, .singleQuote v)
    | none => none

/-- Embeds `parse_unescaped_string`: the maximal run of non-whitespace
characters, never failing (the run may be empty). -/
def parseUnescapedString (input : List Char) : List Char × String :=
  let (tok, rest) := takeWhileSplit (fun c => !ruIsWhitespace c) input
  (rest, ⟨tok⟩)

/-- Embeds `i64::from_str` as used by `map_res`: optional sign, at least one
digit, nothing else, result within the `i64` range. -/
def parseI64 (cs : List Char) : Option Int :=
  let signed : Int × List Char :=
    match cs with
    | '+' :: rest => (1, rest)
    | '-' :: rest => (-1, rest)
    | _ => (1, cs)
  let ds := signed.2
  if ds.isEmpty then none
  else if ds.all (·.isDigit) then
    let n : Nat := ds.foldl (fun a c => a * 10 + (c.toNat - 48)) 0
    let v : Int := signed.1 * (n : Int)
    if -(2 ^ 63) ≤ v ∧ v ≤ 2 ^ 63 - 1 then some v else none
  else none

/-- Embeds `parse_int`: a maximal non-whitespace run that fully parses as an
`i64`. -/
def parseIntP (input : List Char) : Option (List Char × Int) :=
  let (tok, rest) := takeWhileSplit (fun c => !ruIsWhitespace c) input
  (parseI64 tok).map fun v => (rest, v)

/-- Nonempty all-digit run, for the `f64` grammar. -/
def digitsNonempty (cs : List Char) : Bool := !cs.isEmpty && cs.all (·.isDigit)

/-- Mantissa of `f64::from_str`: `Digits`, `Digits . Digits?` or `. Digits`. -/
def f64MantissaOk (cs : List Char) : Bool :=
  match cs.findIdx? (· = '.') with
  | none => digitsNonempty cs
  | some i =>
    let intPart := cs.take i
    let fracPart := cs.drop (i + 1)
    (digitsNonempty intPart && fracPart.all (·.isDigit)) ||
    (intPart.isEmpty && digitsNonempty fracPart)

/-- Exponent of `f64::from_str`: optional sign then nonempty digits. -/
def f64ExpOk (cs : List Char) : Bool :=
  let ds := match cs with
    | '+' :: r => r
    | '-' :: r => r
    | _ => cs
  digitsNonempty ds

/-- Embeds the acceptance of `f64::from_str`: optional sign, then
`inf`/`infinity`/`nan` (case-insensitive) or mantissa with optional
`e`/`E` exponent. -/
def f64Accepts (cs : List Char) : Bool :=
  let body := match cs with
    | '+' :: r => r
    | '-' :: r => r
    | _ => cs
  let lower := body.map Char.toLower
  if lower = "inf".data || lower = "infinity".data || lower = "nan".data then true
  else
    match body.findIdx? (fun c => c = 'e' || c = 'E') with
    | none => f64MantissaOk body
    | some i => f64MantissaOk (body.take i) && f64ExpOk (body.drop (i + 1))

/-- Embeds `parse_float`: a maximal non-whitespace run accepted by
`f64::from_str`; the resulting value is modelled by its token text. -/
def parseFloatP (input : List Char) : Option (List Char × String) :=
  let (tok, rest) := takeWhileSplit (fun c => !ruIsWhitespace c) input
  if f64Accepts tok then some (rest, ⟨tok⟩) else none

/-- Embeds `parse_u_number`: a run of `-`/digits, the literal `:U`, and the
run fully parsing as an `i64`. -/
def parseUNumberP (input : List Char) : Option (List Char × Int) :=
  let (tok, r1) := takeWhileSplit (fun c => c = '-' || ruIsNumeric c) input
  (tagChars [':', 'U'] r1).bind fun r2 =>
    (parseI64 tok).map fun v => (r2, v)

/-- Embeds `Attribute::deserialize`: the ordered choice
uid, string (double then single), int, float, u-number, and the never-failing
unquoted-string fallback; the first success wins. -/
def attributeP (input : List Char) : Option (List Char × Attribute) :=
  match reaperUidP input with
  | some (r, v) => some (r, .reaperUid v)
  | none =>
    match reaperStringP input with
    | some (r, v) => some (r, .string v)
    | none =>
      match parseIntP input with
      | some (r, v) => some (r, .int v)
      | none =>
        match parseFloatP input with
        | some (r, v) => some (r, .float v)
        | none =>
          match parseUNumberP input with
          | some (r, v) => some (r, .uNumber v)
          | none =>
            let (rest, v) := parseUnescapedString input
            some (rest, .string (.unquoted v))

/-- Embeds `AttributeName::deserialize`: a nonempty run of uppercase letters,
digits and underscores. -/
def attributeNameP (input : List Char) : Option (List Char × String) :=
  let (tok, rest) :=
    takeWhileSplit (fun c => ruIsUpperAlpha c || ruIsNumeric c || c = '_') input
  if tok.isEmpty then none else some (rest, ⟨tok⟩)

/-- The loop of `nom`'s `separated_list1(parse_space, Attribute::deserialize)`:
stop when the separator fails, backtrack the separator when the element fails,
and reject a separator that consumes nothing (nom's infinite-loop guard —
unreachable, a space always consumes).  Fuel bounds the iteration count; each
iteration consumes at least the separator character. -/
def sepByValuesGo : Nat → List Attribute → List Char → Option (List Char × List Attribute)
  | 0, _, _ => none
  | fuel + 1, acc, input =>
    match parseSpace input with
    | none => some (input, acc.reverse)
    | some r1 =>
      if r1.length = input.length then none
      else
        match attributeP r1 with
        | none => some (input, acc.reverse)
        | some (r2, v) => sepByValuesGo fuel (v :: acc) r2

/-- The `separated_list1(parse_space, ...).preceded_by(parse_space)` of
`Line::deserialize`: one space, a first value, then the separator loop. -/
def lineValuesP (input : List Char) : Option (List Char × List Attribute) :=
  (parseSpace input).bind fun r1 =>
    (attributeP r1).bind fun (r2, v) =>
      sepByValuesGo (r2.length + 1) [v] r2

/-- Embeds `Line::deserialize`: the indent, the attribute name, and under
`opt(...)` the space-separated values (backtracking to just after the name
when they fail). -/
def lineP (indent : Nat) (input : List Char) : Option (List Char × Line) :=
  (parseIndents indent input).bind fun r0 =>
    (attributeNameP r0).bind fun (r1, name) =>
      match lineValuesP r1 with
      | some (r2, vs) => some (r2, ⟨name, vs⟩)
      | none => some (r1, ⟨name, []⟩)

/-- Embeds `AnonymousParameter::deserialize`: the indent, then a nonempty run
of alphanumeric or base64 (`+`, `/`, `=`) characters. -/
def anonymousParameterP (indent : Nat) (input : List Char) : Option (List Char × String) :=
  (parseIndents indent input).bind fun r0 =>
    let (tok, rest) :=
      takeWhileSplit (fun c => ruIsAlphanumeric c || c = '+' || c = '/' || c = '=') r0
    if tok.isEmpty then none else some (rest, ⟨tok⟩)

mutual

/-- Embeds `Object::deserialize`: indent, `<`, header line (relative indent
0) terminated by a newline, the `many0` children at `indent + 1`, then indent
and `>`. -/
def objectP : Nat → Nat → List Char → Option (List Char × Object)
  | 0, _, _ => none
  | fuel + 1, indent, input =>
    (parseIndents indent input).bind fun r0 =>
      (tagChars ['<'] r0).bind fun r1 =>
        (lineP 0 r1).bind fun (r2, header) =>
          (parseNewline r2).bind fun r3 =>
            (entriesP fuel indent r3).bind fun (r4, entries) =>
              (parseIndents indent r4).bind fun r5 =>
                (tagChars ['>'] r5).map fun r6 => (r6, (⟨header, entries⟩ : Object))

/-- Embeds the `many0(entry_line)` of `Object::deserialize`: children parsed
at `indent + 1` until one fails, with nom's zero-consumption guard
(unreachable, every entry consumes its newline). -/
def entriesP : Nat → Nat → List Char → Option (List Char × List Entry)
  | 0, _, _ => none
  | fuel + 1, indent, input =>
    match entryP fuel (indent + 1) input with
    | none => some (input, [])
    | some (r1, e) =>
      if r1.length = input.length then none
      else
        match entriesP fuel indent r1 with
        | none => none
        | some (r2, es) => some (r2, e :: es)

/-- Embeds `Entry::deserialize`: ordered choice of object, line, anonymous
parameter, each terminated by a newline. -/
def entryP : Nat → Nat → List Char → Option (List Char × Entry)
  | 0, _, _ => none
  | fuel + 1, indent, input =>
    match (objectP fuel indent input).bind fun (r, o) =>
        (parseNewline r).map fun rr => (rr, o.toEntry) with
    | some res => some res
    | none =>
      match (lineP indent input).bind fun (r, l) =>
          (parseNewline r).map fun rr => (rr, Entry.line l) with
      | some res => some res
      | none =>
        (anonymousParameterP indent input).bind fun (r, v) =>
          (parseNewline r).map fun rr => (rr, Entry.anonymousParameter v)

end

/-- Embeds `error::Error` of low_level.rs. -/
inductive LowError where
  | writeError
  | writeWhitespaceError
  | parseError (report : String)
  | objectNoSuchParam (param : String)
  | badParamCount (expected found : Nat)
  deriving DecidableEq

/-- Fuel supplied to the recursive grammar by the public entry point: any
value at least the recursion depth gives the parser's semantics, and the
depth is linear in the input length because every recursive step consumes
input. -/
def fromStrFuel (s : String) : Nat := 4 * s.data.length + 4

/-- Embeds the top-level `from_str` (low_level.rs): parse an `Object` at
indent 0 and drop the unconsumed remainder; a parse failure becomes a
`ParseError` (whose formatted nom trace is not modelled). -/
def fromStr (s : String) : Except LowError Object :=
  match objectP (fromStrFuel s) 0 s.data with
  | some (_, o) => .ok o
  | none => .error (.parseError "")

/-! ## Low-level named accessors (low_level.rs, `impl Object`) -/

/-- The `find_map` selector shared by `Object::attributes_mut` and
`Track::name`: a `Line` child with the given attribute name yields its
values, anything else is skipped. -/
def lineValuesSelector (param : String) (e : Entry) : Option (List Attribute) :=
  match e with
  | .line l => if l.attr = param then some l.values else none
  | _ => none

/-- Tests whether an entry is a `Line` with the given attribute name (used
only to state theorems). -/
def isNamedLine (param : String) (e : Entry) : Bool :=
  match e with
  | .line l => l.attr = param
  | _ => false

/-- Embeds `Object::attributes_mut`: the values of the first `Line` child
whose attribute name equals `param` (non-`Line` children and other names are
skipped). -/
def attributesOf (o : Object) (param : String) : Option (List Attribute) :=
  o.values.findSome? (lineValuesSelector param)

/-- Embeds `Object::single_attribute_mut`: no such line is
`ObjectNoSuchParam`; a line with no first value is `BadParamCount` with
`expected = 1` and `found` the value count; otherwise the FIRST value is
returned (mutable access is modelled by returning the value). -/
def singleAttributeMut (o : Object) (param : String) : Except LowError Attribute :=
  match attributesOf o param with
  | none => .error (.objectNoSuchParam param)
  | some params =>
    match params.head? with
    | none => .error (.badParamCount 1 params.length)
    | some v => .ok v

/-- Modelled from the spec: `Object::single_attribute` is referenced by
`SourceWave::file` in high_level.rs but is defined nowhere under src/.  Per
the spec's single-attribute access and `file()` contract, an absent line
gives `none` and a line holding exactly one scalar exposes that scalar; the
behavior on a present line with a value count other than one is not
determined by the sources under src/ and is modelled as `none` (no claim
exercises it). -/
def singleAttribute (o : Object) (param : String) : Option Attribute :=
  (attributesOf o param).bind fun params =>
    match params with
    | [v] => some v
    | _ => none

/-! ## Typed-view layer (high_level.rs) -/

/-- Modelled from the spec: `low_level::AttributeKind` is referenced by
high_level.rs (`AttributeKind::from(&Attribute)`, the expected/found fields
of the kind-mismatch error) but is defined nowhere under src/.  One kind per
`Attribute` variant. -/
inductive AttributeKind where
  | reaperUid
  | int
  | string
  | float
  | uNumber
  deriving DecidableEq

/-- Modelled from the spec: the `From<&Attribute> for AttributeKind`
conversion used by `SourceWave::file`, mapping a scalar to its kind. -/
def Attribute.kind : Attribute → AttributeKind
  | .reaperUid _ => .reaperUid
  | .int _ => .int
  | .string _ => .string
  | .float _ => .float
  | .uNumber _ => .uNumber

/-- Embeds `high_level::error::Error`. -/
inductive HighError where
  | invalidObject (expected got : String)
  | emptyProject
  | lowLevel (e : LowError)
  | missingAttribute (attr : String)
  | invalidAttributeType (field : String) (expected found : AttributeKind)
  | noSourceFile
  deriving DecidableEq

/-- Embeds the thread-local `DUMMY_OBJECT` placeholder: an empty object whose
header name is `DUMMY`. -/
def DUMMY_OBJECT : Object := ⟨⟨"DUMMY", []⟩, []⟩

/-- Embeds `matches_attribute_name_ref`: the header name equals the tag. -/
def matchesAttributeNameRef (o : Object) (tag : String) : Bool :=
  o.header.attr = tag

/-- Embeds `assert_attribute_name`: the object itself when the tag matches,
otherwise the `InvalidObject` error carrying the expected and actual names. -/
def assertAttributeName (o : Object) (tag : String) : Except HighError Object :=
  if matchesAttributeNameRef o tag then .ok o
  else .error (.invalidObject tag o.header.attr)

/-- Embeds `ObjectWrapper::from_object` for the view with expected tag `tag`
(`REAPER_PROJECT`, `TRACK`, `ITEM`, `SOURCE`): `assert_attribute_name`
followed by the lossless `from_object_raw` wrap, so a view is represented
here by the `Object` it owns. -/
def fromObject (tag : String) (o : Object) : Except HighError Object :=
  assertAttributeName o tag

/-- Embeds `ObjectWrapper::with_as_object_mut`: `mem::replace` swaps a clone
of `DUMMY_OBJECT` into the slot and takes the original; on successful
conversion the closure's result object is written back, on failure the
original is written back unchanged and the error is returned.  The final
slot content is the first component. -/
def withAsObjectMut {T : Type} (tag : String) (slot : Object)
    (f : Object → Object × T) : Object × Except HighError T :=
  match fromObject tag slot with
  | .ok valid =>
    let r := f valid
    (r.1, .ok r.2)
  | .error e => (slot, .error e)

/-- Embeds the `extract_if` predicate of `ReaperProject::modify_tracks`:
an entry that is an `Object` convertible to a `Track`, i.e. whose header
name is `TRACK`. -/
def isTrackEntry (e : Entry) : Bool :=
  match e.asObject with
  | some o => matchesAttributeNameRef o "TRACK"
  | none => false

/-- The track carried by a matching entry (the checked conversion the
`expect`s of `modify_tracks` rely on). -/
def entryTrack? (e : Entry) : Option Object :=
  e.asObject.bind fun o =>
    if matchesAttributeNameRef o "TRACK" then some o else none

/-- Embeds `Vec::insert` at an index that is at most the length (the only
case `modify_tracks` reaches): the element placed before the current
position-`n` suffix. -/
def insertAt (n : Nat) (x : Entry) (l : List Entry) : List Entry :=
  l.take n ++ x :: l.drop n

/-- Embeds the anchor computation of `ReaperProject::modify_tracks`: the
index of the first child that is an `Object` (of any header name), or else
the index of the LAST child (`value_index().last()`), or `none` for a
childless project. -/
def anchorIndex (values : List Entry) : Option Nat :=
  match values.findIdx? Entry.isObjectB with
  | some i => some i
  | none =>
    match values.length with
    | 0 => none
    | n + 1 => some n

/-- Embeds `ReaperProject::modify_tracks`: fail with `EmptyProject` when
there is nothing to anchor to; otherwise extract every `TRACK` child in
order (`extract_if`), pass them to the modifier, and reinsert the returned
tracks one by one at the anchor index in reverse order. -/
def modifyTracks (modifier : List Object → List Object) (p : Object) :
    Except HighError Object :=
  match anchorIndex p.values with
  | none => .error .emptyProject
  | some a =>
    let popped := p.values.filterMap entryTrack?
    let remaining := p.values.filter fun e => !isTrackEntry e
    let newTracks := modifier popped
    .ok ⟨p.header, newTracks.reverse.foldl (fun vs t => insertAt a t.toEntry vs) remaining⟩

/-- Embeds `Track::name`: the first `Line` child named `NAME`, its first
value rendered by `serialize_inline`; both a missing `NAME` line and a
`NAME` line with no values give the `MissingAttribute` error. -/
def trackName (o : Object) : Except HighError String :=
  match o.values.findSome? (lineValuesSelector "NAME") with
  | none => .error (.missingAttribute "NAME")
  | some vs =>
    match vs.head? with
    | none => .error (.missingAttribute "NAME")
    | some v => .ok v.serializeInline

/-- Embeds `SourceWave::file`: the lone `FILE` value when it is a string
(returning its payload), the kind-mismatch error with expected kind
`String` and the value's actual kind otherwise, and `none` when
`single_attribute` finds nothing. -/
def sourceWaveFile (o : Object) : Option (Except HighError String) :=
  (singleAttribute o "FILE").map fun attr =>
    match attr with
    | .string s => .ok s.payload
    | other => .error (.invalidAttributeType "FILE" .string other.kind)

/-! ## Carriage-return freeness of a tree's text payloads

Used to state where the `"\r"` characters of a serialized document can come
from: only from the payload strings of the tree itself, never from the
serializer's own line terminators. -/

/-- No carriage-return character among the characters of a string. -/
def strNoCR (s : String) : Bool := s.data.all (· ≠ crChar)

/-- Payload CR-freeness of a scalar. -/
def Attribute.crFree : Attribute → Bool
  | .reaperUid v => strNoCR v
  | .string v => strNoCR v.payload
  | .float v => strNoCR v
  | .int _ => true
  | .uNumber _ => true

/-- Payload CR-freeness of a line (name and every value). -/
def Line.crFree (l : Line) : Bool :=
  strNoCR l.attr && l.values.all Attribute.crFree

mutual

/-- Payload CR-freeness of an entry. -/
def Entry.crFree : Entry → Bool
  | .object h vs => h.crFree && Entry.crFreeList vs
  | .line l => l.crFree
  | .anonymousParameter v => strNoCR v

/-- Payload CR-freeness of a list of entries. -/
def Entry.crFreeList : List Entry → Bool
  | [] => true
  | e :: es => Entry.crFree e && Entry.crFreeList es

end

/-- Payload CR-freeness of an object. -/
def Object.crFree (o : Object) : Bool := o.toEntry.crFree

/-! ## Helper lemmas: carriage returns in serializer output -/

theorem strNoCR_iff (s : String) : strNoCR s = true ↔ crChar ∉ s.data := by
  simp only [strNoCR, List.all_eq_true, decide_eq_true_eq]
  constructor
  · intro h hc
    exact h _ hc rfl
  · intro h x hx he
    exact h (he ▸ hx)

theorem crChar_not_mem_indentChars (indent : Nat) : crChar ∉ indentChars indent := by
  intro hmem
  rw [indentChars, List.mem_replicate] at hmem
  exact absurd hmem.2 (by decide)

theorem digitChar10_ne_cr (d : Nat) (h : d < 10) : digitChar10 d ≠ crChar := by
  interval_cases d <;> decide

theorem crChar_not_mem_natChars (n : Nat) : crChar ∉ natChars n := by
  induction n using natChars.induct with
  | case1 n h =>
    rw [natChars]
    simp only [h, dite_true, List.mem_singleton]
    exact fun he => digitChar10_ne_cr n h he.symm
  | case2 n h ih =>
    rw [natChars]
    simp only [h, dite_false, List.mem_append, List.mem_singleton]
    rintro (hc | hc)
    · exact ih hc
    · exact digitChar10_ne_cr (n % 10) (Nat.mod_lt _ (by omega)) hc.symm

theorem crChar_not_mem_intChars (i : Int) : crChar ∉ intChars i := by
  rw [intChars]
  split
  · simp only [List.mem_cons]
    rintro (hc | hc)
    · exact absurd hc.symm (by decide)
    · exact crChar_not_mem_natChars _ hc
  · exact crChar_not_mem_natChars _

theorem crChar_not_mem_rs_serialize (v : ReaperString) (h : strNoCR v.payload = true) :
    crChar ∉ v.serializeChars := by
  have hp := (strNoCR_iff _).mp h
  cases v with
  | singleQuote v =>
    intro hc
    rw [ReaperString.serializeChars] at hc
    rcases List.mem_append.mp hc with hc | hc
    · rcases List.mem_cons.mp hc with hc | hc
      · exact absurd hc (by decide)
      · exact hp hc
    · exact absurd (List.mem_singleton.mp hc) (by decide)
  | doubleQuote v =>
    intro hc
    rw [ReaperString.serializeChars] at hc
    rcases List.mem_append.mp hc with hc | hc
    · rcases List.mem_cons.mp hc with hc | hc
      · exact absurd hc (by decide)
      · exact hp hc
    · exact absurd (List.mem_singleton.mp hc) (by decide)
  | unquoted v =>
    exact hp

theorem crChar_not_mem_attr (a : Attribute) (h : a.crFree = true) :
    crChar ∉ a.serializeChars := by
  cases a with
  | reaperUid v =>
    have hp := (strNoCR_iff _).mp h
    intro hc
    rw [Attribute.serializeChars] at hc
    rcases List.mem_append.mp hc with hc | hc
    · rcases List.mem_cons.mp hc with hc | hc
      · exact absurd hc (by decide)
      · exact hp hc
    · exact absurd (List.mem_singleton.mp hc) (by decide)
  | string v => exact crChar_not_mem_rs_serialize v h
  | float v => exact (strNoCR_iff _).mp h
  | int v => exact crChar_not_mem_intChars v
  | uNumber v =>
    intro hc
    rw [Attribute.serializeChars] at hc
    rcases List.mem_append.mp hc with hc | hc
    · exact crChar_not_mem_intChars v hc
    · rcases List.mem_cons.mp hc with hc | hc
      · exact absurd hc (by decide)
      · exact absurd (List.mem_singleton.mp hc) (by decide)

theorem joinSpace_cons₂ (x y : List Char) (ys : List (List Char)) :
    joinSpace (x :: y :: ys) = x ++ ' ' :: joinSpace (y :: ys) := by
  rw [joinSpace]
  simp

theorem crChar_not_mem_joinSpace (ls : List (List Char)) (h : ∀ x ∈ ls, crChar ∉ x) :
    crChar ∉ joinSpace ls := by
  induction ls using joinSpace.induct with
  | case1 => simp [joinSpace]
  | case2 x => exact h x (by simp)
  | case3 x y hne ih =>
    cases y with
    | nil => exact (hne rfl).elim
    | cons z zs =>
      intro hc
      rw [joinSpace_cons₂] at hc
      rcases List.mem_append.mp hc with hc | hc
      · exact h x (by simp) hc
      · rcases List.mem_cons.mp hc with hc | hc
        · exact absurd hc (by decide)
        · exact ih (fun w hw => h w (List.mem_cons_of_mem x hw)) hc

theorem crChar_not_mem_line (l : Line) (h : l.crFree = true) (indent : Nat) :
    crChar ∉ l.serializeChars indent := by
  rw [Line.crFree, Bool.and_eq_true, List.all_eq_true] at h
  intro hc
  rw [Line.serializeChars] at hc
  rcases List.mem_append.mp hc with hc | hc
  · exact crChar_not_mem_indentChars indent hc
  · refine crChar_not_mem_joinSpace _ ?_ hc
    intro x hx
    rcases List.mem_cons.mp hx with hx | hx
    · exact hx ▸ (strNoCR_iff _).mp h.1
    · obtain ⟨a, ha, rfl⟩ := List.mem_map.mp hx
      exact crChar_not_mem_attr a (h.2 a ha)

theorem crChar_not_mem_entry_serialize :
    ∀ (e : Entry) (indent : Nat), Entry.crFree e = true → crChar ∉ e.serializeChars indent := by
  refine Entry.serializeChars.induct
    (fun e indent => Entry.crFree e = true → crChar ∉ e.serializeChars indent)
    (fun es indent => Entry.crFreeList es = true → crChar ∉ Entry.serializeList es indent)
    ?_ ?_ ?_ ?_ ?_
  · intro header values indent ih h
    rw [Entry.crFree, Bool.and_eq_true] at h
    intro hc
    rw [Entry.serializeChars] at hc
    rcases List.mem_append.mp hc with hc | hc
    · rcases List.mem_append.mp hc with hc | hc
      · exact crChar_not_mem_indentChars indent hc
      · rcases List.mem_cons.mp hc with hc | hc
        · exact absurd hc (by decide)
        · exact crChar_not_mem_line header h.1 0 hc
    · rcases List.mem_cons.mp hc with hc | hc
      · exact absurd hc (by decide)
      · rcases List.mem_append.mp hc with hc | hc
        · rcases List.mem_append.mp hc with hc | hc
          · exact ih h.2 hc
          · exact crChar_not_mem_indentChars indent hc
        · exact absurd (List.mem_singleton.mp hc) (by decide)
  · intro l indent h
    exact crChar_not_mem_line l h indent
  · intro v indent h
    intro hc
    rw [Entry.serializeChars] at hc
    rcases List.mem_append.mp hc with hc | hc
    · exact crChar_not_mem_indentChars indent hc
    · exact (strNoCR_iff _).mp h hc
  · intro indent _
    simp [Entry.serializeList]
  · intro e es indent ih₁ ih₂ h
    rw [Entry.crFreeList, Bool.and_eq_true] at h
    intro hc
    rw [Entry.serializeList] at hc
    rcases List.mem_append.mp hc with hc | hc
    · exact ih₁ h.1 hc
    · rcases List.mem_cons.mp hc with hc | hc
      · exact absurd hc (by decide)
      · exact ih₂ h.2 hc

theorem crChar_not_mem_object_serialize (o : Object) (indent : Nat)
    (h : o.crFree = true) : crChar ∉ o.serializeChars indent :=
  crChar_not_mem_entry_serialize o.toEntry indent h

/-! ## Helper lemmas: list machinery for `modify_tracks` and named-line lookup -/

theorem findIdx?_all_false {α : Type} (p : α → Bool) :
    ∀ (l : List α), (∀ e ∈ l, p e = false) → ∀ i, List.findIdx? p l i = none := by
  intro l
  induction l with
  | nil => intro _ i; simp
  | cons e es ih =>
    intro h i
    rw [List.findIdx?_cons]
    simp only [h e (by simp), Bool.false_eq_true, if_false]
    exact ih (fun x hx => h x (List.mem_cons_of_mem e hx)) (i + 1)

theorem findIdx?_first_true {α : Type} (p : α → Bool) (x : α) (hx : p x = true) :
    ∀ (l₁ l₂ : List α), (∀ e ∈ l₁, p e = false) → ∀ i,
      List.findIdx? p (l₁ ++ x :: l₂) i = some (i + l₁.length) := by
  intro l₁
  induction l₁ with
  | nil =>
    intro l₂ _ i
    simp [List.findIdx?_cons, hx]
  | cons e es ih =>
    intro l₂ h i
    rw [List.cons_append, List.findIdx?_cons]
    simp only [h e (by simp), Bool.false_eq_true, if_false]
    rw [ih l₂ (fun z hz => h z (List.mem_cons_of_mem e hz)) (i + 1)]
    congr 1
    simp
    omega

theorem findSome?_append_first {α β : Type} (f : α → Option β) (x : α) (b : β)
    (hx : f x = some b) :
    ∀ (l₁ l₂ : List α), (∀ e ∈ l₁, f e = none) →
      List.findSome? f (l₁ ++ x :: l₂) = some b := by
  intro l₁
  induction l₁ with
  | nil =>
    intro l₂ _
    rw [List.nil_append, List.findSome?_cons, hx]
  | cons e es ih =>
    intro l₂ h
    rw [List.cons_append, List.findSome?_cons, h e (by simp)]
    exact ih l₂ (fun z hz => h z (List.mem_cons_of_mem e hz))

theorem isTrackEntry_isObject (e : Entry) (h : isTrackEntry e = true) :
    Entry.isObjectB e = true := by
  cases e <;> simp_all [isTrackEntry, Entry.asObject, Entry.isObjectB]

theorem entryTrack?_eq_none (e : Entry) (h : isTrackEntry e = false) :
    entryTrack? e = none := by
  cases e <;> simp_all [isTrackEntry, entryTrack?, Entry.asObject]

theorem track_filterMap_roundtrip :
    ∀ (t : List Entry), (∀ e ∈ t, isTrackEntry e = true) →
      (t.filterMap entryTrack?).map Object.toEntry = t := by
  intro t
  induction t with
  | nil => simp
  | cons e es ih =>
    intro h
    have he := h e (by simp)
    cases e with
    | object hh vv =>
      have hname : matchesAttributeNameRef ⟨hh, vv⟩ "TRACK" = true := by
        simpa [isTrackEntry, Entry.asObject] using he
      have hsome : entryTrack? (Entry.object hh vv) = some ⟨hh, vv⟩ := by
        simp [entryTrack?, Entry.asObject, hname]
      rw [List.filterMap_cons, hsome, List.map_cons,
        ih (fun z hz => h z (List.mem_cons_of_mem _ hz))]
      rfl
    | line l => simp [isTrackEntry, Entry.asObject] at he
    | anonymousParameter v => simp [isTrackEntry, Entry.asObject] at he

theorem foldl_insertAt (ts : List Object) (a : Nat) :
    ∀ (acc : List Entry), a ≤ acc.length →
      List.foldl (fun vs t => insertAt a t.toEntry vs) acc ts.reverse =
        acc.take a ++ ts.map Object.toEntry ++ acc.drop a := by
  induction ts with
  | nil =>
    intro acc _
    simp [List.take_append_drop]
  | cons t ts' ih =>
    intro acc ha
    rw [List.reverse_cons, List.foldl_append, ih acc ha]
    simp only [List.foldl_cons, List.foldl_nil]
    rw [insertAt]
    have hlen : (acc.take a).length = a := by
      rw [List.length_take]
      omega
    have htake : (acc.take a ++ (ts'.map Object.toEntry ++ acc.drop a)).take a = acc.take a := by
      rw [List.take_append_eq_append_take, hlen, Nat.sub_self, List.take_zero,
        List.append_nil, List.take_take]
      simp
    have hdrop : (acc.take a ++ (ts'.map Object.toEntry ++ acc.drop a)).drop a =
        ts'.map Object.toEntry ++ acc.drop a := by
      rw [List.drop_append_eq_append_drop, hlen, Nat.sub_self, List.drop_zero]
      have : (acc.take a).drop a = [] := by
        apply List.drop_eq_nil_of_le
        omega
      rw [this, List.nil_append]
    rw [List.append_assoc, htake, hdrop]
    simp

@[simp] theorem Object.header_mk (h : Line) (v : List Entry) :
    (Object.mk h v).header = h := rfl

@[simp] theorem Object.values_mk (h : Line) (v : List Entry) :
    (Object.mk h v).values = v := rfl

theorem anchorIndex_of_ne_nil (values : List Entry) (h : values ≠ []) :
    ∃ a, anchorIndex values = some a := by
  rw [anchorIndex]
  cases hf : List.findIdx? Entry.isObjectB values with
  | some i => exact ⟨i, rfl⟩
  | none =>
    cases hl : values.length with
    | zero => exact absurd (List.length_eq_zero.mp hl) h
    | succ n => exact ⟨n, rfl⟩

theorem modifyTracks_eq (modifier : List Object → List Object) (o : Object) (a : Nat)
    (ha : anchorIndex o.values = some a) :
    modifyTracks modifier o =
      .ok ⟨o.header,
        (modifier (o.values.filterMap entryTrack?)).reverse.foldl
          (fun vs t => insertAt a t.toEntry vs)
          (o.values.filter fun e => !isTrackEntry e)⟩ := by
  rw [modifyTracks, ha]

theorem lineValuesSelector_eq_none (param : String) (e : Entry)
    (h : isNamedLine param e = false) : lineValuesSelector param e = none := by
  cases e <;> simp_all [isNamedLine, lineValuesSelector]

theorem findSome?_lineValues (param : String) (pre post : List Entry) (l : Line)
    (hpre : ∀ e ∈ pre, isNamedLine param e = false) (hname : l.attr = param) :
    (pre ++ .line l :: post).findSome? (lineValuesSelector param) = some l.values :=
  findSome?_append_first _ _ _ (by simp [lineValuesSelector, hname]) pre post
    (fun e he => lineValuesSelector_eq_none param e (hpre e he))

theorem findSome?_lineValues_none (param : String) (values : List Entry)
    (h : ∀ e ∈ values, isNamedLine param e = false) :
    values.findSome? (lineValuesSelector param) = none :=
  List.findSome?_eq_none_iff.mpr fun e he => lineValuesSelector_eq_none param e (h e he)

theorem attributesOf_split (o : Object) (param : String) (pre post : List Entry) (l : Line)
    (hsplit : o.values = pre ++ .line l :: post)
    (hpre : ∀ e ∈ pre, isNamedLine param e = false) (hname : l.attr = param) :
    attributesOf o param = some l.values := by
  rw [attributesOf, hsplit]
  exact findSome?_lineValues param pre post l hpre hname

theorem attributesOf_none (o : Object) (param : String)
    (h : ∀ e ∈ o.values, isNamedLine param e = false) :
    attributesOf o param = none := by
  rw [attributesOf]
  exact findSome?_lineValues_none param o.values h

/-! ## Claim theorems -/

/-- Claim C1, counterexample.  The claim states that every line terminator
emitted by the serializer is `"\r\n"`.  On the object `<EMPTY>`, however,
the top-level `to_string` produces `"<EMPTY\n>\r\n"`: the terminator after
the header line is the bare `"\n"` written by `writeln!`, not `"\r\n"`
(the claimed output would be `"<EMPTY\r\n>\r\n"`). -/
theorem c1_counterexample :
    toStringTop ⟨⟨"EMPTY", []⟩, []⟩ = "<EMPTY\n>\r\n" ∧
    toStringTop ⟨⟨"EMPTY", []⟩, []⟩ ≠ "<EMPTY\r\n>\r\n" := by
  constructor
  · rfl
  · decide

/-- Claim C1 (amended): the line terminators emitted by `Object::serialize`
after the header line and after each child entry are the single character
`"\n"` (what `writeln!` writes), not `"\r\n"`; the top-level `to_string`
appends one final `"\r\n"`, and this final terminator is the only place a
carriage return occurs in the output, provided the tree's own text payloads
contain no carriage returns. -/
theorem c1_serializer_newlines (o : Object) (indent : Nat) (h : o.crFree = true) :
    crChar ∉ o.serializeChars indent ∧
    (toStringTop o).data = o.serializeChars 0 ++ [crChar, lfChar] ∧
    (toStringTop o).data.count crChar = 1 := by
  refine ⟨crChar_not_mem_object_serialize o indent h, rfl, ?_⟩
  have hzero : (o.serializeChars 0).count crChar = 0 :=
    List.count_eq_zero.mpr (crChar_not_mem_object_serialize o 0 h)
  show (o.serializeChars 0 ++ [crChar, lfChar]).count crChar = 1
  rw [List.count_append, hzero]
  decide

/-- Claim C1, witness: the amended theorem evaluated on a small concrete
document. -/
theorem c1_witness :
    Object.crFree ⟨⟨"METRONOME", [.int 6]⟩, [.line ⟨"VOL", [.float "0.25"]⟩]⟩ = true ∧
    (crChar ∉ Object.serializeChars ⟨⟨"METRONOME", [.int 6]⟩, [.line ⟨"VOL", [.float "0.25"]⟩]⟩ 0 ∧
     (toStringTop ⟨⟨"METRONOME", [.int 6]⟩, [.line ⟨"VOL", [.float "0.25"]⟩]⟩).data =
       Object.serializeChars ⟨⟨"METRONOME", [.int 6]⟩, [.line ⟨"VOL", [.float "0.25"]⟩]⟩ 0 ++
         [crChar, lfChar] ∧
     (toStringTop ⟨⟨"METRONOME", [.int 6]⟩, [.line ⟨"VOL", [.float "0.25"]⟩]⟩).data.count crChar = 1) :=
  ⟨by decide, c1_serializer_newlines _ 0 (by decide)⟩

/-- Claim C4, counterexample.  The claim states that a `FILE` line holding
two or more values makes `single_attribute_mut` fail with a count-mismatch
error (`expected = 1`, `found` = the actual count).  On a `FILE` line holding
the two values `1 2`, however, `single_attribute_mut` succeeds and returns
the first value: `params.first_mut().ok_or(...)` only fails when the value
vector is empty. -/
theorem c4_counterexample :
    singleAttributeMut ⟨⟨"SOURCE", []⟩, [.line ⟨"FILE", [.int 1, .int 2]⟩]⟩ "FILE" =
      .ok (.int 1) ∧
    (Except.ok (Attribute.int 1) : Except LowError Attribute) ≠
      .error (.badParamCount 1 2) := by
  constructor
  · rfl
  · exact fun h => Except.noConfusion h

/-- Claim C4 (amended): for every object containing a `Line` named `FILE`
(the first such line), `single_attribute_mut` on `"FILE"` fails with the
count-mismatch error `BadParamCount {expected := 1, found := 0}` exactly when
that line holds zero values; when the line holds one or more values it
succeeds and returns the first value (so a count of two or more is not an
error). -/
theorem c4_single_attribute_count (o : Object) (pre post : List Entry) (l : Line)
    (hsplit : o.values = pre ++ .line l :: post)
    (hpre : ∀ e ∈ pre, isNamedLine "FILE" e = false)
    (hname : l.attr = "FILE") :
    (l.values = [] → singleAttributeMut o "FILE" = .error (.badParamCount 1 0)) ∧
    (∀ v vs, l.values = v :: vs → singleAttributeMut o "FILE" = .ok v) := by
  have ha := attributesOf_split o "FILE" pre post l hsplit hpre hname
  constructor
  · intro hnil
    rw [singleAttributeMut, ha, hnil]
    rfl
  · intro v vs hcons
    rw [singleAttributeMut, ha, hcons]
    rfl

/-- Claim C4, witness: the amended theorem evaluated on a `FILE` line with
zero values and on one with a single value. -/
theorem c4_witness :
    singleAttributeMut ⟨⟨"SOURCE", []⟩, [.line ⟨"FILE", []⟩]⟩ "FILE" =
      .error (.badParamCount 1 0) ∧
    singleAttributeMut ⟨⟨"SOURCE", []⟩, [.anonymousParameter "x", .line ⟨"FILE", [.int 7]⟩]⟩
      "FILE" = .ok (.int 7) :=
  ⟨(c4_single_attribute_count _ [] [] ⟨"FILE", []⟩ rfl (by simp) rfl).1 rfl,
   (c4_single_attribute_count _ [.anonymousParameter "x"] [] ⟨"FILE", [.int 7]⟩ rfl
      (by decide) rfl).2 (.int 7) [] rfl⟩

/-- Claim C5: for every parent slot holding an object and every mutation
closure, if the typed-view conversion inside `with_as_object_mut` fails then
the slot afterwards holds exactly the object it held before and the
conversion error is returned; and in every outcome the slot ends holding one
of the caller's objects — the original on failure, the closure's result on
success — so the `DUMMY_OBJECT` placeholder swapped in mid-protocol never
remains in the slot. -/
theorem c5_with_as_object_mut_atomic {T : Type} (tag : String) (slot : Object)
    (f : Object → Object × T) :
    (∀ e, fromObject tag slot = .error e → withAsObjectMut tag slot f = (slot, .error e)) ∧
    ((withAsObjectMut tag slot f).1 = slot ∨
      ∃ valid, fromObject tag slot = .ok valid ∧
        (withAsObjectMut tag slot f).1 = (f valid).1) := by
  constructor
  · intro e he
    rw [withAsObjectMut, he]
  · cases h : fromObject tag slot with
    | ok v =>
      right
      exact ⟨v, rfl, by rw [withAsObjectMut, h]⟩
    | error e =>
      left
      rw [withAsObjectMut, h]

/-- Claim C5, witness: a failing conversion (`ITEM` object viewed as `TRACK`)
restores the slot and surfaces the error. -/
theorem c5_witness :
    withAsObjectMut "TRACK" ⟨⟨"ITEM", []⟩, []⟩ (fun o => (o, (42 : Nat))) =
      (⟨⟨"ITEM", []⟩, []⟩, .error (.invalidObject "TRACK" "ITEM")) :=
  (c5_with_as_object_mut_atomic "TRACK" ⟨⟨"ITEM", []⟩, []⟩ (fun o => (o, 42))).1
    (.invalidObject "TRACK" "ITEM") rfl

/-- Claim C6: for every expected tag (in particular `REAPER_PROJECT`,
`TRACK`, `ITEM`, `SOURCE`) and every object, `from_object` succeeds exactly
when the object's header attribute name equals the tag, and on failure it
returns `InvalidObject` whose `expected` field is the tag and whose `got`
field is the object's actual header name. -/
theorem c6_from_object_schema (tag : String) (o : Object) :
    ((∃ v, fromObject tag o = .ok v) ↔ o.header.attr = tag) ∧
    (o.header.attr ≠ tag → fromObject tag o = .error (.invalidObject tag o.header.attr)) ∧
    (o.header.attr = tag → fromObject tag o = .ok o) := by
  rw [fromObject, assertAttributeName]
  by_cases h : o.header.attr = tag <;>
    simp [matchesAttributeNameRef, h]

/-- Claim C6, witness: converting a `VOLPAN`-tagged object into the `TRACK`
view fails with expected `"TRACK"` and got `"VOLPAN"`; an actual `TRACK`
object converts successfully. -/
theorem c6_witness :
    fromObject "TRACK" ⟨⟨"VOLPAN", [.int 1]⟩, []⟩ =
      .error (.invalidObject "TRACK" "VOLPAN") ∧
    fromObject "TRACK" ⟨⟨"TRACK", []⟩, []⟩ = .ok ⟨⟨"TRACK", []⟩, []⟩ :=
  ⟨(c6_from_object_schema "TRACK" ⟨⟨"VOLPAN", [.int 1]⟩, []⟩).2.1 (by decide),
   (c6_from_object_schema "TRACK" ⟨⟨"TRACK", []⟩, []⟩).2.2 rfl⟩

/-- Claim C7: scalar parsing is the deterministic ordered choice
uid, double-quoted string, single-quoted string, int, float, u-number,
unquoted fallback.  The brace-wrapped hex/hyphen token always parses as
`Uid` (never falling through to the string fallback), and in the line
`AUXRECV 0 0 1 0 0 0 0 0 0 -1:U 0 -1 ''` the token `-1:U` parses as
`UNumber (-1)` and the trailing `''` as the empty single-quoted string,
with the whole line consumed. -/
theorem c7_ordered_choice :
    attributeP "{A365E92F-3BF8-24E8-1FF4-8FDF30208BCB}".data =
      some ([], .reaperUid "A365E92F-3BF8-24E8-1FF4-8FDF30208BCB") ∧
    lineP 0 "AUXRECV 0 0 1 0 0 0 0 0 0 -1:U 0 -1 ''".data =
      some ([], ⟨"AUXRECV",
        [.int 0, .int 0, .int 1, .int 0, .int 0, .int 0, .int 0, .int 0, .int 0,
         .uNumber (-1), .int 0, .int (-1), .string (.singleQuote "")]⟩) :=
  ⟨rfl, rfl⟩

/-- Claim C9: the public parse entry point `from_str` never rejects trailing
content — whenever the depth-0 `Object` grammar succeeds on a prefix of the
input, `from_str` returns that object and silently discards the unconsumed
remainder after the root object's closing `>`. -/
theorem c9_from_str_drops_remainder (s : String) (rest : List Char) (o : Object)
    (h : objectP (fromStrFuel s) 0 s.data = some (rest, o)) :
    fromStr s = .ok o := by
  rw [fromStr, h]

/-- Claim C9, witness: an input carrying arbitrary text after the root
object's closing `>` still parses successfully, to the object parsed from
the prefix. -/
theorem c9_witness :
    fromStr "<EMPTY\r\n>stray text after the closing delimiter" =
      .ok ⟨⟨"EMPTY", []⟩, []⟩ :=
  c9_from_str_drops_remainder "<EMPTY\r\n>stray text after the closing delimiter"
    "stray text after the closing delimiter".data ⟨⟨"EMPTY", []⟩, []⟩ rfl

/-- Claim C2, counterexample.  The claim states that `modify_tracks` with the
identity transform leaves the child sequence unchanged for any project with
at least one child.  On the project whose children are a `SOURCE` object
followed by a `TRACK` object, however, the identity transform moves the
track in front of the source: the insertion anchor is the first `Object`
child of any name, not the first `TRACK`. -/
theorem c2_counterexample :
    modifyTracks (fun x => x)
      ⟨⟨"REAPER_PROJECT", []⟩, [.object ⟨"SOURCE", []⟩ [], .object ⟨"TRACK", []⟩ []]⟩ =
      .ok ⟨⟨"REAPER_PROJECT", []⟩, [.object ⟨"TRACK", []⟩ [], .object ⟨"SOURCE", []⟩ []]⟩ ∧
    ([.object ⟨"TRACK", []⟩ [], .object ⟨"SOURCE", []⟩ []] : List Entry) ≠
      [.object ⟨"SOURCE", []⟩ [], .object ⟨"TRACK", []⟩ []] := by
  constructor
  · rfl
  · decide

/-- Claim C2 (amended): `modify_tracks` with the identity transform leaves
the project's child sequence unchanged for any project with at least one
child whose `TRACK` children form one contiguous block positioned at the
first `Object` child (no `Object` of another name before them and no
non-`Object` child interleaved among them) — in particular for any project
with no `TRACK` children at all.  Outside that shape the sequence changes,
as the counterexample shows. -/
theorem c2_modify_tracks_identity (hd : Line) (p t s : List Entry)
    (hp : ∀ e ∈ p, Entry.isObjectB e = false)
    (ht : ∀ e ∈ t, isTrackEntry e = true)
    (hs : ∀ e ∈ s, isTrackEntry e = false)
    (hne : p ++ t ++ s ≠ []) :
    modifyTracks (fun x => x) ⟨hd, p ++ t ++ s⟩ = .ok ⟨hd, p ++ t ++ s⟩ := by
  have hpt : ∀ e ∈ p, isTrackEntry e = false := by
    intro e he
    cases hh : isTrackEntry e
    · rfl
    · have hob := isTrackEntry_isObject e hh
      rw [hp e he] at hob
      exact absurd hob (by simp)
  have hrem : (p ++ t ++ s).filter (fun e => !isTrackEntry e) = p ++ s := by
    rw [List.filter_append, List.filter_append,
      List.filter_eq_self.mpr (fun e he => by rw [hpt e he]; rfl),
      List.filter_eq_nil_iff.mpr (fun e he => by rw [ht e he]; simp),
      List.filter_eq_self.mpr (fun e he => by rw [hs e he]; rfl),
      List.append_nil]
  have hpop : (p ++ t ++ s).filterMap entryTrack? = t.filterMap entryTrack? := by
    rw [List.filterMap_append, List.filterMap_append,
      List.filterMap_eq_nil_iff.mpr (fun e he => entryTrack?_eq_none e (hpt e he)),
      List.filterMap_eq_nil_iff.mpr (fun e he => entryTrack?_eq_none e (hs e he)),
      List.nil_append, List.append_nil]
  cases t with
  | nil =>
    obtain ⟨a, ha⟩ := anchorIndex_of_ne_nil (p ++ [] ++ s) hne
    rw [modifyTracks_eq (fun x => x) ⟨hd, p ++ [] ++ s⟩ a ha]
    simp only [Object.header_mk, Object.values_mk]
    rw [hpop, hrem]
    simp
  | cons t0 tr =>
    have hanchor : anchorIndex (p ++ (t0 :: tr) ++ s) = some p.length := by
      rw [anchorIndex]
      have hshape : p ++ (t0 :: tr) ++ s = p ++ t0 :: (tr ++ s) := by simp
      rw [hshape, findIdx?_first_true Entry.isObjectB t0
        (isTrackEntry_isObject t0 (ht t0 (by simp))) p (tr ++ s) hp 0]
      norm_num
    rw [modifyTracks_eq (fun x => x) ⟨hd, p ++ (t0 :: tr) ++ s⟩ p.length hanchor]
    simp only [Object.header_mk, Object.values_mk]
    rw [hpop, hrem]
    show Except.ok (Object.mk hd (List.foldl _ _ _)) = _
    rw [foldl_insertAt (List.filterMap entryTrack? (t0 :: tr)) p.length (p ++ s)
        (by simp),
      track_filterMap_roundtrip (t0 :: tr) ht,
      List.take_left, List.drop_left]

/-- Claim C2, witness: the amended theorem on spec scenario 3's project shape
(`RENDER` line, two tracks, `TEMPO` line). -/
theorem c2_witness :
    modifyTracks (fun x => x)
      ⟨⟨"REAPER_PROJECT", []⟩,
        [.line ⟨"RENDER", []⟩] ++
          [.object ⟨"TRACK", [.reaperUid "AA"]⟩ [], .object ⟨"TRACK", [.reaperUid "BB"]⟩ []] ++
          [.line ⟨"TEMPO", []⟩]⟩ =
      .ok ⟨⟨"REAPER_PROJECT", []⟩,
        [.line ⟨"RENDER", []⟩] ++
          [.object ⟨"TRACK", [.reaperUid "AA"]⟩ [], .object ⟨"TRACK", [.reaperUid "BB"]⟩ []] ++
          [.line ⟨"TEMPO", []⟩]⟩ :=
  c2_modify_tracks_identity ⟨"REAPER_PROJECT", []⟩ _ _ _
    (by decide) (by decide) (by decide) (by decide)

/-- Claim C3, counterexample.  The claim states that when no child matches
the track tag, the transform's tracks are appended after every original
child.  On a project whose children are the two lines `AA` and `BB`, a
transform returning one track yields `[AA, TRACK, BB]` — the track is
inserted at the index of the last child, i.e. before `BB`, not after it. -/
theorem c3_counterexample :
    modifyTracks (fun _ => [⟨⟨"TRACK", []⟩, []⟩])
      ⟨⟨"REAPER_PROJECT", []⟩, [.line ⟨"AA", []⟩, .line ⟨"BB", []⟩]⟩ =
      .ok ⟨⟨"REAPER_PROJECT", []⟩,
        [.line ⟨"AA", []⟩, .object ⟨"TRACK", []⟩ [], .line ⟨"BB", []⟩]⟩ ∧
    ([.line ⟨"AA", []⟩, .object ⟨"TRACK", []⟩ [], .line ⟨"BB", []⟩] : List Entry) ≠
      [.line ⟨"AA", []⟩, .line ⟨"BB", []⟩, .object ⟨"TRACK", []⟩ []] := by
  constructor
  · rfl
  · decide

/-- Claim C3 (amended): on a project with at least one child none of which
is an `Object`, the tracks returned by the transform are inserted at the
index of the LAST existing child — immediately before the final child, not
appended after it; on a project with no children at all, `modify_tracks`
fails with the `EmptyProject` error. -/
theorem c3_modify_tracks_anchor (hd : Line) (values : List Entry)
    (f : List Object → List Object)
    (hne : values ≠ []) (hobj : ∀ e ∈ values, Entry.isObjectB e = false) :
    modifyTracks f ⟨hd, values⟩ =
      .ok ⟨hd, values.take (values.length - 1) ++ (f []).map Object.toEntry ++
        values.drop (values.length - 1)⟩ ∧
    modifyTracks f (⟨hd, []⟩ : Object) = .error .emptyProject := by
  constructor
  · have htr : ∀ e ∈ values, isTrackEntry e = false := by
      intro e he
      cases hh : isTrackEntry e
      · rfl
      · have hob := isTrackEntry_isObject e hh
        rw [hobj e he] at hob
        exact absurd hob (by simp)
    have hanchor : anchorIndex values = some (values.length - 1) := by
      rw [anchorIndex, findIdx?_all_false Entry.isObjectB values hobj 0]
      cases hl : values.length with
      | zero => exact absurd (List.length_eq_zero.mp hl) hne
      | succ n => norm_num
    rw [modifyTracks_eq f ⟨hd, values⟩ (values.length - 1) hanchor]
    simp only [Object.header_mk, Object.values_mk]
    rw [List.filterMap_eq_nil_iff.mpr (fun e he => entryTrack?_eq_none e (htr e he)),
      List.filter_eq_self.mpr (fun e he => by rw [htr e he]; rfl),
      foldl_insertAt (f []) (values.length - 1) values (by omega)]
  · rfl

/-- Claim C3, witness: the amended theorem on a two-line project with a
transform returning one track. -/
theorem c3_witness :
    modifyTracks (fun _ => [⟨⟨"TRACK", []⟩, []⟩])
      ⟨⟨"REAPER_PROJECT", []⟩, [.line ⟨"CC", []⟩, .line ⟨"DD", []⟩]⟩ =
      .ok ⟨⟨"REAPER_PROJECT", []⟩,
        [.line ⟨"CC", []⟩, .object ⟨"TRACK", []⟩ [], .line ⟨"DD", []⟩]⟩ ∧
    modifyTracks (fun _ => [⟨⟨"TRACK", []⟩, []⟩]) (⟨⟨"REAPER_PROJECT", []⟩, []⟩ : Object) =
      .error .emptyProject :=
  ⟨(c3_modify_tracks_anchor ⟨"REAPER_PROJECT", []⟩ [.line ⟨"CC", []⟩, .line ⟨"DD", []⟩]
      (fun _ => [⟨⟨"TRACK", []⟩, []⟩]) (by decide) (by decide)).1,
   (c3_modify_tracks_anchor ⟨"REAPER_PROJECT", []⟩ [.line ⟨"CC", []⟩, .line ⟨"DD", []⟩]
      (fun _ => [⟨⟨"TRACK", []⟩, []⟩]) (by decide) (by decide)).2⟩

/-- Claim C8: a media-source object with no `FILE` line at all returns
`none` from `file()` (absence is not an error); a media-source object whose
`FILE` line holds exactly one value of a non-`String` kind returns
`some (error ...)` carrying the kind-mismatch error with expected kind
`String` and found kind the value's actual kind. -/
theorem c8_source_wave_file (o : Object) :
    ((∀ e ∈ o.values, isNamedLine "FILE" e = false) → sourceWaveFile o = none) ∧
    (∀ (pre post : List Entry) (l : Line) (v : Attribute),
      o.values = pre ++ .line l :: post →
      (∀ e ∈ pre, isNamedLine "FILE" e = false) →
      l.attr = "FILE" → l.values = [v] → v.kind ≠ .string →
      sourceWaveFile o = some (.error (.invalidAttributeType "FILE" .string v.kind))) := by
  constructor
  · intro h
    rw [sourceWaveFile, singleAttribute, attributesOf_none o "FILE" h]
    rfl
  · intro pre post l v hsplit hpre hname hvals hkind
    have hsingle : singleAttribute o "FILE" = some v := by
      rw [singleAttribute, attributesOf_split o "FILE" pre post l hsplit hpre hname, hvals]
      rfl
    rw [sourceWaveFile, hsingle]
    cases v with
    | string sv => exact absurd rfl hkind
    | reaperUid uv => rfl
    | int iv => rfl
    | float fv => rfl
    | uNumber uv => rfl

/-- Claim C8, witness: `file()` on a source object with no `FILE` line, and
on one whose `FILE` line holds the single non-string value `5`. -/
theorem c8_witness :
    sourceWaveFile ⟨⟨"SOURCE", []⟩, [.line ⟨"POSITION", [.int 0]⟩]⟩ = none ∧
    sourceWaveFile ⟨⟨"SOURCE", []⟩, [.line ⟨"FILE", [.int 5]⟩]⟩ =
      some (.error (.invalidAttributeType "FILE" .string .int)) :=
  ⟨(c8_source_wave_file ⟨⟨"SOURCE", []⟩, [.line ⟨"POSITION", [.int 0]⟩]⟩).1 (by decide),
   (c8_source_wave_file ⟨⟨"SOURCE", []⟩, [.line ⟨"FILE", [.int 5]⟩]⟩).2
     [] [] ⟨"FILE", [.int 5]⟩ (.int 5) rfl (by simp) rfl rfl (by decide)⟩

/-- Claim C10: for every track, `name()` looks up the first `NAME` line; when
that line has at least one value the result is the inline-serialized text of
the FIRST value — so a single- or double-quoted string comes back with its
surrounding quote characters, and later values on the line are ignored —
while a `NAME` line with zero values yields the same `MissingAttribute`
error as an absent `NAME` line. -/
theorem c10_track_name (o : Object) :
    (∀ (pre post : List Entry) (l : Line),
      o.values = pre ++ .line l :: post →
      (∀ e ∈ pre, isNamedLine "NAME" e = false) →
      l.attr = "NAME" →
      ((l.values = [] → trackName o = .error (.missingAttribute "NAME")) ∧
       (∀ v vs, l.values = v :: vs → trackName o = .ok v.serializeInline))) ∧
    ((∀ e ∈ o.values, isNamedLine "NAME" e = false) →
      trackName o = .error (.missingAttribute "NAME")) ∧
    (∀ s, Attribute.serializeInline (.string (.singleQuote s)) = "'" ++ s ++ "'") ∧
    (∀ s, Attribute.serializeInline (.string (.doubleQuote s)) = "\"" ++ s ++ "\"") := by
  refine ⟨?_, ?_, ?_, ?_⟩
  · intro pre post l hsplit hpre hname
    have ha : o.values.findSome? (lineValuesSelector "NAME") = some l.values := by
      rw [hsplit]
      exact findSome?_lineValues "NAME" pre post l hpre hname
    constructor
    · intro hnil
      rw [trackName, ha, hnil]
      rfl
    · intro v vs hcons
      rw [trackName, ha, hcons]
      rfl
  · intro h
    rw [trackName, findSome?_lineValues_none "NAME" o.values h]
  · intro s
    cases s
    rfl
  · intro s
    cases s
    rfl

/-- Claim C10, witness: a `NAME` line whose first value is the single-quoted
string `PLATE` (with a second, ignored value) yields `'PLATE'` including the
quotes; a track without a `NAME` line yields the missing-attribute error. -/
theorem c10_witness :
    trackName ⟨⟨"TRACK", []⟩,
      [.line ⟨"NAME", [.string (.singleQuote "PLATE"), .int 7]⟩]⟩ = .ok "'PLATE'" ∧
    trackName ⟨⟨"TRACK", []⟩, [.line ⟨"PEAKCOL", [.int 16576]⟩]⟩ =
      .error (.missingAttribute "NAME") :=
  ⟨((c10_track_name ⟨⟨"TRACK", []⟩,
        [.line ⟨"NAME", [.string (.singleQuote "PLATE"), .int 7]⟩]⟩).1
      [] [] ⟨"NAME", [.string (.singleQuote "PLATE"), .int 7]⟩ rfl (by simp) rfl).2
      (.string (.singleQuote "PLATE")) [.int 7] rfl,
   (c10_track_name ⟨⟨"TRACK", []⟩, [.line ⟨"PEAKCOL", [.int 16576]⟩]⟩).2.1 (by decide)⟩

end ReaperSave
